import Mathlib

/-!
Shallow embedding of `src/convert_tide_data.py` (tide-table-generator).

Modelling conventions:
* `datetime` instants (minute resolution throughout the pipeline) are modelled
  as `Nat` minute counts on a proleptic-Gregorian day number scale: a datetime
  with day number `D`, hour `H`, minute `M` is the natural number
  `D * 1440 + H * 60 + M`.  Comparison and subtraction of datetimes in the
  source correspond exactly to comparison and subtraction on these counts, and
  grouping by the `"%Y-%m-%d"` day string corresponds to grouping by `t / 1440`
  (strftime renders distinct days to distinct strings).  Sorting those strings
  is NOT the same as sorting day numbers — glibc's `%Y` is unpadded — so the
  final sort is modelled on the rendered strings themselves (`strftimeDate`).
* Python floats are idealised as real numbers `ℝ`; `math.sin`, `math.pi` become
  `Real.sin`, `Real.pi`, and `round(x, 1)` becomes rounding `10 * x` to the
  nearest integer over `ℝ` (the binary-float and round-half-to-even details of
  CPython are idealised away; no claim below depends on them).
* Fallible Python code (uncaught `IndexError` / `ValueError` exceptions) is
  modelled with `Option`: `none` is an uncaught exception aborting the run.
-/

/-- An extremum record: `{'time': datetime, 'height': float}` from
`parse_csv_to_extrema`.  `time` is in minutes (see module conventions). -/
structure Extremum where
  time : Nat
  height : ℝ

/-- One element of the output list of `generate_hourly_tides`: the dict
`{"Date": date_str, "HH:00": height, ...}`.  `date` is the day number of the
`"%Y-%m-%d"` key; `hours` is the insertion-ordered list of
(hour-of-day, rounded height) entries other than `"Date"`. -/
structure DailyRecord where
  date : Nat
  hours : List (Nat × ℝ)

/-- `dt.replace(hour=0, minute=0, second=0, microsecond=0)` on a minute count. -/
def floorToDay (t : Nat) : Nat := 1440 * (t / 1440)

/-- Day number of an instant: the `"%Y-%m-%d"` grouping key. -/
def dayOf (t : Nat) : Nat := t / 1440

/-- Hour of day of an instant: the `"%H"` part of the `"%H:00"` key. -/
def hourOf (t : Nat) : Nat := t % 1440 / 60

/-- `tide_height_between` (src/convert_tide_data.py lines 85-110): half-sine
interpolation between consecutive extrema, with clamping at both ends.
`(t - t0).total_seconds() / (t1 - t0).total_seconds()` equals the minute-count
ratio (the factor 60 cancels). -/
noncomputable def tide_height_between (t t0 : Nat) (h0 : ℝ) (t1 : Nat) (h1 : ℝ) : ℝ :=
  if t ≤ t0 then h0
  else if t1 ≤ t then h1
  else
    let x : ℝ := ((t : ℝ) - (t0 : ℝ)) / ((t1 : ℝ) - (t0 : ℝ))
    let s : ℝ := 0.5 * (1 + Real.sin (Real.pi * x - Real.pi / 2))
    h0 + (h1 - h0) * s

/-- `round(ht, 1)`: round to one decimal place (idealised over `ℝ`). -/
noncomputable def roundTo1 (x : ℝ) : ℝ := ((round (x * 10) : ℤ) : ℝ) / 10

/-- The scan `for i in range(len(extrema) - 1): ... if t0 <= t <= t1: ... break`
(lines 136-149): the first consecutive pair of extrema bracketing `t`. -/
def bracket (extrema : List Extremum) (t : Nat) : Option (Extremum × Extremum) :=
  (extrema.zip extrema.tail).find? (fun p => p.1.time ≤ t && t ≤ p.2.time)

/-- Setting `daily_data[date_str][hour_str] = v` on the insertion-ordered dict
`daily_data` (creating `{"Date": date_str}` first if absent, lines 143-148).
During a run each (day, hour) pair is visited at most once — the ticks are
strictly increasing — so setting the fresh inner key is an append. -/
def insertSample (data : List DailyRecord) (d h : Nat) (v : ℝ) : List DailyRecord :=
  match data with
  | [] => [⟨d, [(h, v)]⟩]
  | r :: rs =>
      if r.date = d then ⟨r.date, r.hours ++ [(h, v)]⟩ :: rs
      else r :: insertSample rs d h v

/-- One iteration of the `while t <= end` loop body (lines 131-149). -/
noncomputable def hourlyStep (extrema : List Extremum) (data : List DailyRecord)
    (t : Nat) : List DailyRecord :=
  match bracket extrema t with
  | some (e0, e1) =>
      insertSample data (dayOf t) (hourOf t)
        (roundTo1 (tide_height_between t e0.time e0.height e1.time e1.height))
  | none => data

/-- The instants visited by `while t <= end: ...; t += timedelta(hours=1)`
starting from `start`. -/
def ticks (start endT : Nat) : List Nat :=
  (List.range (if start ≤ endT then (endT - start) / 60 + 1 else 0)).map
    (fun k => start + 60 * k)

instance : DecidableRel (fun a b : Extremum => a.time ≤ b.time) :=
  fun a b => Nat.decLe a.time b.time

instance : IsTotal Extremum (fun a b => a.time ≤ b.time) :=
  ⟨fun a b => Nat.le_total a.time b.time⟩

instance : IsTrans Extremum (fun a b => a.time ≤ b.time) :=
  ⟨fun _ _ _ h h2 => Nat.le_trans h h2⟩

/-- Date components of a day number (inverse of `dayNumber` on valid days;
the standard civil-from-days construction). -/
def civilFromDays (z : Nat) : Nat × Nat × Nat :=
  let era := z / 146097
  let doe := z % 146097
  let yoe := (doe - doe / 1460 + doe / 36524 - doe / 146096) / 365
  let y := yoe + era * 400
  let doy := doe - (365 * yoe + yoe / 4 - yoe / 100)
  let mp := (5 * doy + 2) / 153
  let d := doy - (153 * mp + 2) / 5 + 1
  let m := if mp < 10 then mp + 3 else mp - 9
  (if m ≤ 2 then y + 1 else y, m, d)

/-- Zero-pad a number to two digits (the `%m` / `%d` rendering). -/
def pad2 (n : Nat) : String := if n < 10 then "0" ++ Nat.repr n else Nat.repr n

/-- `t.strftime("%Y-%m-%d")` on a day number, as rendered by glibc: `%Y` is
the year as a plain decimal — NOT zero-padded, so years below 1000 render
with fewer than 4 digits (`999-12-31`) — and `%m` / `%d` are zero-padded to
two digits.  This string is the dict key of `daily_data` and the key
`sorted()` compares. -/
def strftimeDate (day : Nat) : String :=
  match civilFromDays day with
  | (y, m, d) => Nat.repr y ++ "-" ++ pad2 m ++ "-" ++ pad2 d

/-- Lexicographic code-point order on character lists: exactly Python's
`str` comparison, which `sorted(daily_data.keys())` uses. -/
def charListLe : List Char → List Char → Bool
  | [], _ => true
  | _ :: _, [] => false
  | a :: as, b :: bs =>
      if a.toNat < b.toNat then true
      else if b.toNat < a.toNat then false
      else charListLe as bs

/-- Python string `<=` on the character-list view. -/
def strLe (a b : String) : Bool := charListLe a.data b.data

instance (priority := low) :
    DecidableRel (fun a b : DailyRecord =>
      strLe (strftimeDate a.date) (strftimeDate b.date) = true) :=
  fun a b => instDecidableEqBool _ _

/-- `generate_hourly_tides` (lines 112-154).  On an empty extrema list the
source evaluates `extrema[0]` and dies with an uncaught `IndexError`,
modelled as `none`.  `extrema[-1]` is `rest.getLastD e0`; the final
`[daily_data[date] for date in sorted(daily_data.keys())]` sorts the records
ascending by their `strftime("%Y-%m-%d")` key string (`sorted` is a stable
ascending sort, modelled by the stable `List.insertionSort`; the keys are
strings, so the order is the code-point order of `strftimeDate`, not the
chronological order of the day numbers). -/
noncomputable def generate_hourly_tides (extrema : List Extremum) :
    Option (List DailyRecord) :=
  match extrema with
  | [] => none
  | e0 :: rest =>
      let lastE := rest.getLastD e0
      let start := floorToDay e0.time
      let endT := floorToDay lastE.time + 23 * 60
      some (List.insertionSort
        (fun a b => strLe (strftimeDate a.date) (strftimeDate b.date) = true)
        ((ticks start endT).foldl (hourlyStep (e0 :: rest)) []))

/-- One entry of the `issues` list built by `validate_output`. -/
inductive Finding where
  | incompleteDay (date : Nat) (hoursPresent : Nat)
  | unusualLevel (date : Nat) (hour : Nat) (level : ℝ)

/-- The findings contributed by a single day inside `validate_output`
(lines 160-173): first the hour-count check, then the per-hour range check
`not (-0.5 <= level <= 4)` in entry order (the `"Date"` key is skipped). -/
noncomputable def dayIssues (r : DailyRecord) : List Finding :=
  (if r.hours.length ≠ 24 then [Finding.incompleteDay r.date r.hours.length] else []) ++
    r.hours.filterMap (fun p =>
      if ¬((-0.5 : ℝ) ≤ p.2 ∧ p.2 ≤ 4) then
        some (Finding.unusualLevel r.date p.1 p.2)
      else none)

/-- `validate_output` (lines 156-175): the `issues` list accumulated over the
days in order. -/
noncomputable def validate_output (daily_tides : List DailyRecord) : List Finding :=
  (daily_tides.map dayIssues).flatten

/-- The data `main` (lines 200-222) writes to the output file: it generates
`daily_tides`, computes the validation findings (which are only printed), and
then dumps `daily_tides` itself — findings never filter or change it. -/
noncomputable def main_written (extrema : List Extremum) : Option (List DailyRecord) :=
  match generate_hourly_tides extrema with
  | none => none
  | some daily_tides =>
      let _issues := validate_output daily_tides
      some daily_tides

/-- One CSV data row as handed to the loop of `parse_csv_to_extrema`:
the `Date` field and the four `(Time{i}, Height{i})` column pairs, `i = 1..4`
(a column missing from the file is `row.get(key, '') = ""`). -/
structure Row where
  date : String
  slots : List (String × String)

/-- The exact set of code points CPython treats as whitespace
(`Py_UNICODE_ISSPACE`, used by `str.strip()` and stripped around `int()` /
`float()` tokens): 0x09-0x0D, 0x1C-0x1F, 0x20, 0x85, 0xA0, 0x1680,
0x2000-0x200A, 0x2028, 0x2029, 0x202F, 0x205F, 0x3000. -/
def isPySpace (c : Char) : Bool :=
  let n := c.toNat
  (0x09 ≤ n ∧ n ≤ 0x0D) ∨ (0x1C ≤ n ∧ n ≤ 0x20) ∨ n = 0x85 ∨ n = 0xA0 ∨
  n = 0x1680 ∨ (0x2000 ≤ n ∧ n ≤ 0x200A) ∨ n = 0x2028 ∨ n = 0x2029 ∨
  n = 0x202F ∨ n = 0x205F ∨ n = 0x3000

/-- Drop Python whitespace from both ends of a character list. -/
def pyStripChars (cs : List Char) : List Char :=
  ((cs.dropWhile isPySpace).reverse.dropWhile isPySpace).reverse

/-- `str.strip()`: drop whitespace from both ends (on the character-list view
of the string). -/
def pyStrip (s : String) : String := ⟨pyStripChars s.data⟩

/-- The nonneg-decimal grammar of `strptime` digit groups: a nonempty
all-ASCII-digit character sequence, read in base 10.  (The `\d` of the
strptime regexes also matches non-ASCII Unicode decimal digits; characters
beyond ASCII are treated as non-digits here, an idealisation no claim
quantifies over.) -/
def digitsToNat : List Char → Option Nat
  | [] => none
  | cs =>
      if cs.all Char.isDigit then
        some (cs.foldl (fun n c => 10 * n + (c.toNat - 48)) 0)
      else none

/-- A digit run in a CPython numeric literal, continuing an already-seen
digit: further digits, with single underscores allowed only between digits
(`1_2` parses, `1__2`, `1_`, `_1` do not).  Returns the value so far and the
number of digits read (underscores excluded — the count a decimal fraction
divides by). -/
def digitsRun : Nat → Nat → List Char → Option (Nat × Nat)
  | acc, cnt, [] => some (acc, cnt)
  | acc, cnt, c :: cs =>
      if c.isDigit then digitsRun (10 * acc + (c.toNat - 48)) (cnt + 1) cs
      else if c = '_' then
        match cs with
        | c2 :: cs2 =>
            if c2.isDigit then digitsRun (10 * acc + (c2.toNat - 48)) (cnt + 1) cs2
            else none
        | [] => none
      else none

/-- A nonempty underscore-grouped ASCII digit run (the digit part of CPython
`int` / `float` literals), consuming the whole list; returns the value and
the digit count.  (Non-ASCII Unicode decimal digits, which CPython also
accepts, are treated as non-digits; an idealisation no claim quantifies
over.) -/
def digitsGroup (cs : List Char) : Option (Nat × Nat) :=
  match cs with
  | [] => none
  | c :: cs2 => if c.isDigit then digitsRun (c.toNat - 48) 1 cs2 else none

/-- Split a character list on a separator character (`str.split(sep)`). -/
def splitOnChar (c : Char) : List Char → List (List Char)
  | [] => [[]]
  | x :: xs =>
      let r := splitOnChar c xs
      if x = c then [] :: r
      else
        match r with
        | [] => [[x]]
        | g :: gs => (x :: g) :: gs

/-- `str.startswith(pre)` on the character-list view. -/
def strStartsWith (s pre : String) : Bool :=
  decide (s.data.take pre.data.length = pre.data)

/-- True when the string is pure ASCII: on such strings the numeric grammars
below agree exactly with CPython (no Unicode digits involved). -/
def asciiOnly (s : String) : Bool := s.data.all (fun c => c.toNat < 128)

/-- The case-insensitive, optionally signed `inf` / `infinity` / `nan`
spellings `float()` accepts; they denote non-finite floats, which fall
outside the real-number idealisation. -/
def isInfNan (s : String) : Bool :=
  let t := (pyStripChars s.data).map Char.toLower
  let body := if t.head? = some '-' ∨ t.head? = some '+' then t.tail else t
  body = ['i', 'n', 'f'] ∨ body = ['i', 'n', 'f', 'i', 'n', 'i', 't', 'y'] ∨
    body = ['n', 'a', 'n']

/-- Leap-year rule of the Gregorian calendar (used by `datetime`). -/
def isLeap (y : Nat) : Bool := (y % 4 == 0 && y % 100 != 0) || y % 400 == 0

/-- Number of days in month `m` of year `y`. -/
def daysInMonth (y m : Nat) : Nat :=
  if m = 2 then (if isLeap y then 29 else 28)
  else if m = 4 ∨ m = 6 ∨ m = 9 ∨ m = 11 then 30
  else 31

/-- `datetime.strptime(date_str, '%Y-%m-%d')` (line 69): `%Y` matches exactly
4 digits (the `_strptime` regex is `\d\d\d\d`), `%m` and `%d` match 1-2 digits
in range; the whole string must be consumed, the date must be a valid calendar
date and the year `datetime`-representable (`>= 1`; 4 digits bound it by
9999); any other input raises `ValueError` (`none`). -/
def parseDate (s : String) : Option (Nat × Nat × Nat) :=
  match splitOnChar '-' s.data with
  | [ys, ms, ds] =>
      match digitsToNat ys, digitsToNat ms, digitsToNat ds with
      | some y, some m, some d =>
          if ys.length = 4 ∧ ms.length ≤ 2 ∧ ds.length ≤ 2 ∧
              1 ≤ y ∧ 1 ≤ m ∧ m ≤ 12 ∧ 1 ≤ d ∧ d ≤ daysInMonth y m then
            some (y, m, d)
          else none
      | _, _, _ => none
  | _ => none

/-- Day number of a Gregorian date (days since 0000-03-01, the standard
civil-from-days construction); this is the `D` of the minute-count model.
Only its strict monotonicity in the date matters to the pipeline. -/
def dayNumber (y m d : Nat) : Nat :=
  let yAdj := if m ≤ 2 then y - 1 else y
  let era := yAdj / 400
  let yoe := yAdj % 400
  let mp := (m + 9) % 12
  let doy := (153 * mp + 2) / 5 + d - 1
  let doe := yoe * 365 + yoe / 4 - yoe / 100 + doy
  era * 146097 + doe

/-- `int(s)` on the time substrings (lines 65-66), following the CPython
base-10 grammar: surrounding Python whitespace is stripped, then an optional
single `+`/`-` sign, then a nonempty underscore-grouped digit run
(`int("+1") = 1`, `int(" 12\t") = 12`, `int("1_2") = 12`; `"+ 1"`, `"1__2"`,
`"_1"`, `"1_"`, `""` raise). -/
def pyInt (s : String) : Option Int :=
  let t := pyStripChars s.data
  match t with
  | '+' :: cs => (digitsGroup cs).map (fun p => (p.1 : Int))
  | '-' :: cs => (digitsGroup cs).map (fun p => -(p.1 : Int))
  | cs => (digitsGroup cs).map (fun p => (p.1 : Int))

/-- The mantissa of a CPython float literal: `digits`, `digits.`, `.digits`
or `digits.digits`, each run underscore-grouped; at least one digit. -/
def pyFloatMantissa (mant : List Char) : Option ℚ :=
  match splitOnChar '.' mant with
  | [ip] =>
      match digitsGroup ip with
      | some p => some (p.1 : ℚ)
      | none => none
  | [ip, fp] =>
      if ip.isEmpty ∧ fp.isEmpty then none
      else
        match (if ip.isEmpty then some (0, 0) else digitsGroup ip),
            (if fp.isEmpty then some (0, 0) else digitsGroup fp) with
        | some n, some f => some ((n.1 : ℚ) + (f.1 : ℚ) / 10 ^ f.2)
        | _, _ => none
  | _ => none

/-- `float(s)` (line 73), following the CPython grammar for finite decimal
literals: stripped whitespace, optional sign, mantissa, optional
`e`/`E`-exponent with optional sign, underscores allowed inside each digit
run (`float("1e5")`, `float("1.e5")`, `float("+.5")`, `float("1_2.3_4e1_0")`
all parse).  The non-finite spellings `inf` / `infinity` / `nan`
(see `isInfNan`), which CPython parses to non-finite floats, fall outside the
real-number idealisation and are `none` here; no claim quantifies over them. -/
def pyFloat (s : String) : Option ℚ :=
  let t := pyStripChars s.data
  let neg := t.head? = some '-'
  let body := if t.head? = some '-' ∨ t.head? = some '+' then t.tail else t
  let body2 := body.map (fun c => if c = 'E' then 'e' else c)
  match splitOnChar 'e' body2 with
  | [mant] =>
      match pyFloatMantissa mant with
      | some q => some (if neg then -q else q)
      | none => none
  | [mant, ex] =>
      let eneg := ex.head? = some '-'
      let ebody := if ex.head? = some '-' ∨ ex.head? = some '+' then ex.tail else ex
      match pyFloatMantissa mant, digitsGroup ebody with
      | some q, some p =>
          let v := if eneg then q / (10 : ℚ) ^ p.1 else q * (10 : ℚ) ^ p.1
          some (if neg then -v else v)
      | _, _ => none
  | _ => none

/-- Lines 64-78 for one present slot (both fields nonempty after strip), on the
already-stripped values: parse `hour = int(time_val[:2])`,
`minute = int(time_val[2:])`, `strptime` the date, `dt.replace(hour=hour,
minute=minute)` (which raises `ValueError` unless `0 ≤ hour ≤ 23` and
`0 ≤ minute ≤ 59`), then `float(height_val)`; `none` is the uncaught
exception. -/
def parseSlot (dateStr tv hv : String) : Option Extremum :=
  match pyInt (tv.take 2) with
  | none => none
  | some hour =>
      match pyInt (tv.drop 2) with
      | none => none
      | some minute =>
          match parseDate dateStr with
          | none => none
          | some (y, m, d) =>
              if 0 ≤ hour ∧ hour ≤ 23 ∧ 0 ≤ minute ∧ minute ≤ 59 then
                match pyFloat hv with
                | none => none
                | some q =>
                    some ⟨dayNumber y m d * 1440 + hour.toNat * 60 + minute.toNat,
                      (q : ℝ)⟩
              else none

/-- The `for i in range(1, 5)` loop (lines 56-78) over the slot pairs of one
row: a slot is processed only if both stripped fields are nonempty, otherwise
it is skipped silently. -/
def parseSlots (dateStr : String) : List (String × String) → Option (List Extremum)
  | [] => some []
  | (tv, hv) :: rest =>
      if pyStrip tv ≠ "" ∧ pyStrip hv ≠ "" then
        match parseSlot dateStr (pyStrip tv) (pyStrip hv) with
        | none => none
        | some e => (parseSlots dateStr rest).map (fun es => e :: es)
      else parseSlots dateStr rest

/-- The row loop of `parse_csv_to_extrema` (lines 48-78): rows whose date
starts with `EXAMPLE` are skipped; the extrema of the remaining rows are
accumulated in order. -/
def parseRows : List Row → Option (List Extremum)
  | [] => some []
  | row :: rest =>
      if strStartsWith row.date "EXAMPLE" then parseRows rest
      else
        match parseSlots row.date row.slots with
        | none => none
        | some es => (parseRows rest).map (fun more => es ++ more)

/-- `parse_csv_to_extrema` (lines 36-83): accumulate the extrema of all rows,
then `extrema.sort(key=lambda x: x['time'])` — a stable ascending sort,
modelled by the stable `List.insertionSort`. -/
def parse_csv_to_extrema (rows : List Row) : Option (List Extremum) :=
  (parseRows rows).map (fun extrema =>
    List.insertionSort (fun a b => a.time ≤ b.time) extrema)

/-- Ascending-by-time sortedness of an extrema sequence (the invariant that
`parse_csv_to_extrema` establishes and `generate_hourly_tides` consumes). -/
def sortedByTime : List Extremum → Bool
  | [] => true
  | [_] => true
  | a :: b :: l => a.time ≤ b.time && sortedByTime (b :: l)

/-- Number of entries recorded under hour key `h` in one daily record. -/
def hourCount (r : DailyRecord) (h : Nat) : Nat := r.hours.countP (fun p => p.1 = h)

/-- Number of samples recorded under day `d` and hour `h` across an output. -/
def sampleCount (recs : List DailyRecord) (d h : Nat) : Nat :=
  ((recs.filter (fun r => r.date = d)).map (fun r => hourCount r h)).sum

/-- Total number of hour entries carried by the records of day `d`. -/
def totalCount (recs : List DailyRecord) (d : Nat) : Nat :=
  ((recs.filter (fun r => r.date = d)).map (fun r => r.hours.length)).sum

/-- The conditions under which processing one present slot (with stripped
values `tv`, `hv`) raises an uncaught exception in lines 64-78: a non-numeric
hour slice `time_val[:2]` or minute slice `time_val[2:]`, an invalid `Date`
field, a non-numeric height, or an out-of-range hour/minute rejected by
`dt.replace`.  The failing strings are required to be pure ASCII (and, for
the height, not an `inf`/`nan` spelling), which is exactly where the
numeric grammars above coincide with CPython, so every input satisfying
these conditions makes the real program abort too. -/
def slotBad (dateStr tv hv : String) : Prop :=
  (asciiOnly (tv.take 2) = true ∧ pyInt (tv.take 2) = none) ∨
  (asciiOnly (tv.drop 2) = true ∧ pyInt (tv.drop 2) = none) ∨
  (asciiOnly dateStr = true ∧ parseDate dateStr = none) ∨
  (asciiOnly hv = true ∧ isInfNan hv = false ∧ pyFloat hv = none) ∨
  (∃ hour minute : Int, pyInt (tv.take 2) = some hour ∧
    pyInt (tv.drop 2) = some minute ∧
    ¬(0 ≤ hour ∧ hour ≤ 23 ∧ 0 ≤ minute ∧ minute ≤ 59))

theorem tide_left (t t0 : Nat) (h0 : ℝ) (t1 : Nat) (h1 : ℝ) (h : t ≤ t0) :
    tide_height_between t t0 h0 t1 h1 = h0 := by
  unfold tide_height_between
  rw [if_pos h]

theorem tide_right (t t0 : Nat) (h0 : ℝ) (t1 : Nat) (h1 : ℝ) (hl : t0 < t) (hr : t1 ≤ t) :
    tide_height_between t t0 h0 t1 h1 = h1 := by
  unfold tide_height_between
  rw [if_neg (by omega), if_pos hr]

theorem tide_mid (t t0 : Nat) (h0 : ℝ) (t1 : Nat) (h1 : ℝ) (hl : t0 < t) (hr : t < t1) :
    tide_height_between t t0 h0 t1 h1 =
      h0 + (h1 - h0) *
        (0.5 * (1 + Real.sin (Real.pi * (((t : ℝ) - (t0 : ℝ)) / ((t1 : ℝ) - (t0 : ℝ))) -
          Real.pi / 2))) := by
  unfold tide_height_between
  rw [if_neg (by omega), if_neg (by omega)]

theorem tide_between_bounds (t t0 : Nat) (h0 : ℝ) (t1 : Nat) (h1 : ℝ) (h01 : h0 ≤ h1) :
    h0 ≤ tide_height_between t t0 h0 t1 h1 ∧ tide_height_between t t0 h0 t1 h1 ≤ h1 := by
  unfold tide_height_between
  split
  · exact ⟨le_refl h0, h01⟩
  · split
    · exact ⟨h01, le_refl h1⟩
    · have hs1 := Real.neg_one_le_sin
        (Real.pi * (((t : ℝ) - (t0 : ℝ)) / ((t1 : ℝ) - (t0 : ℝ))) - Real.pi / 2)
      have hs2 := Real.sin_le_one
        (Real.pi * (((t : ℝ) - (t0 : ℝ)) / ((t1 : ℝ) - (t0 : ℝ))) - Real.pi / 2)
      constructor
      · nlinarith
      · nlinarith

theorem sinStep_mono {xa xb : ℝ} (h0a : 0 ≤ xa) (hab : xa ≤ xb) (hb1 : xb ≤ 1) :
    Real.sin (Real.pi * xa - Real.pi / 2) ≤ Real.sin (Real.pi * xb - Real.pi / 2) := by
  have hpi := Real.pi_pos
  refine Real.strictMonoOn_sin.monotoneOn ⟨?_, ?_⟩ ⟨?_, ?_⟩ ?_
  · nlinarith
  · nlinarith
  · nlinarith
  · nlinarith
  · nlinarith

theorem tide_mono_t (t0 t1 : Nat) (h0 h1 : ℝ) (h01t : t0 < t1) (h01 : h0 ≤ h1)
    (ta tb : Nat) (hab : ta ≤ tb) :
    tide_height_between ta t0 h0 t1 h1 ≤ tide_height_between tb t0 h0 t1 h1 := by
  rcases le_or_lt ta t0 with hta | hta
  · rw [tide_left ta t0 h0 t1 h1 hta]
    exact (tide_between_bounds tb t0 h0 t1 h1 h01).1
  · rcases le_or_lt t1 tb with htb | htb
    · rw [tide_right tb t0 h0 t1 h1 (lt_of_lt_of_le hta hab) htb]
      exact (tide_between_bounds ta t0 h0 t1 h1 h01).2
    · have h1a : ta < t1 := lt_of_le_of_lt hab htb
      rw [tide_mid ta t0 h0 t1 h1 hta h1a,
        tide_mid tb t0 h0 t1 h1 (lt_of_lt_of_le hta hab) htb]
      have hc0 : (t0 : ℝ) < (t1 : ℝ) := by exact_mod_cast h01t
      have hd : (0 : ℝ) < (t1 : ℝ) - (t0 : ℝ) := by linarith
      have hca : (t0 : ℝ) < (ta : ℝ) := by exact_mod_cast hta
      have hcab : (ta : ℝ) ≤ (tb : ℝ) := by exact_mod_cast hab
      have hcb : (tb : ℝ) < (t1 : ℝ) := by exact_mod_cast htb
      have hxa0 : 0 ≤ ((ta : ℝ) - (t0 : ℝ)) / ((t1 : ℝ) - (t0 : ℝ)) :=
        div_nonneg (by linarith) (le_of_lt hd)
      have hxab : ((ta : ℝ) - (t0 : ℝ)) / ((t1 : ℝ) - (t0 : ℝ)) ≤
          ((tb : ℝ) - (t0 : ℝ)) / ((t1 : ℝ) - (t0 : ℝ)) :=
        (div_le_div_iff_of_pos_right hd).mpr (by linarith)
      have hxb1 : ((tb : ℝ) - (t0 : ℝ)) / ((t1 : ℝ) - (t0 : ℝ)) ≤ 1 :=
        (div_le_one hd).mpr (by linarith)
      have hs := sinStep_mono hxa0 hxab hxb1
      nlinarith

/-- C5 as stated is false in the degenerate `t0 = t1` bracketing case the spec
itself admits for duplicate-timestamp extrema: the left clamp is checked
first, so the query `t = 0 ≥ t1 = 0` on the bracketing points
`(t0,h0) = (0,1)`, `(t1,h1) = (0,2)` returns `h0 = 1`, not `h1 = 2`. -/
theorem claim_C5_counterexample :
    tide_height_between 0 0 (1 : ℝ) 0 2 = 1 ∧ (1 : ℝ) ≠ 2 :=
  ⟨tide_left 0 0 1 0 2 (le_refl 0), by norm_num⟩

/-- C5 (amended): the clamps are checked left clamp first, so
`tide_height_between` returns `h0` whenever `t ≤ t0` — including the
degenerate query `t = t0 = t1`, the case refuting the original claim, where
`h0` is returned although `t ≥ t1` — and returns `h1` whenever `t ≥ t1` and
`t0 < t` (for proper bracketing `t0 < t1` that is every `t ≥ t1`);
consequently the sampled (1-decimal-rounded) height at an hour tick
coinciding with `t0` always equals the rounding of `h0`, and at `t1` equals
the rounding of `h1` whenever `t0 < t1`. -/
theorem claim_C5 (t t0 t1 : Nat) (h0 h1 : ℝ) :
    (t ≤ t0 → tide_height_between t t0 h0 t1 h1 = h0) ∧
    (t0 < t → t1 ≤ t → tide_height_between t t0 h0 t1 h1 = h1) ∧
    roundTo1 (tide_height_between t0 t0 h0 t1 h1) = roundTo1 h0 ∧
    (t0 < t1 → roundTo1 (tide_height_between t1 t0 h0 t1 h1) = roundTo1 h1) := by
  refine ⟨fun h => tide_left t t0 h0 t1 h1 h,
    fun hl hr => tide_right t t0 h0 t1 h1 hl hr, ?_, fun h01 => ?_⟩
  · rw [tide_left t0 t0 h0 t1 h1 (le_refl t0)]
  · rw [tide_right t1 t0 h0 t1 h1 h01 (le_refl t1)]

/-- Witness for C5: the right clamp at `t = 9 ≥ t1 = 7 > t0 = 3` yields
`h1 = 2`. -/
theorem claim_C5_witness : tide_height_between 9 3 (1 : ℝ) 7 2 = 2 :=
  (claim_C5 9 3 7 1 2).2.1 (by decide) (by decide)

/-- C6: strictly between the bracketing points (`t0 < t < t1`) the result is
`h0 + (h1 - h0) * s` with `x = (t - t0) / (t1 - t0)` and
`s = 0.5 * (1 + sin(pi * x - pi / 2))`. -/
theorem claim_C6 (t t0 t1 : Nat) (h0 h1 : ℝ) (hl : t0 < t) (hr : t < t1) :
    tide_height_between t t0 h0 t1 h1 =
      h0 + (h1 - h0) *
        (0.5 * (1 + Real.sin (Real.pi * (((t : ℝ) - (t0 : ℝ)) / ((t1 : ℝ) - (t0 : ℝ))) -
          Real.pi / 2))) :=
  tide_mid t t0 h0 t1 h1 hl hr

/-- Witness for C6 at `t = 1`, `(t0,h0) = (0,0)`, `(t1,h1) = (2,1)`. -/
theorem claim_C6_witness :
    tide_height_between 1 0 (0 : ℝ) 2 1 =
      0 + (1 - 0) *
        (0.5 * (1 + Real.sin (Real.pi *
          ((((1 : Nat) : ℝ) - ((0 : Nat) : ℝ)) / (((2 : Nat) : ℝ) - ((0 : Nat) : ℝ))) -
          Real.pi / 2))) :=
  claim_C6 1 0 2 0 1 (by decide) (by decide)

/-- C7: for fixed bracketing points with `t0 < t1` and `h0 < h1` (rising
tide), `t ↦ tide_height_between t t0 h0 t1 h1` is monotonically
non-decreasing on `[t0, t1]`. -/
theorem claim_C7 (t0 t1 : Nat) (h0 h1 : ℝ) (h01t : t0 < t1) (h01 : h0 < h1)
    (ta tb : Nat) (hta : t0 ≤ ta) (hab : ta ≤ tb) (htb : tb ≤ t1) :
    tide_height_between ta t0 h0 t1 h1 ≤ tide_height_between tb t0 h0 t1 h1 :=
  tide_mono_t t0 t1 h0 h1 h01t (le_of_lt h01) ta tb hab

/-- Witness for C7 on `[0, 2]` with heights `0 < 1`, at `ta = 0 ≤ tb = 1`. -/
theorem claim_C7_witness :
    tide_height_between 0 0 (0 : ℝ) 2 1 ≤ tide_height_between 1 0 (0 : ℝ) 2 1 :=
  claim_C7 0 2 0 1 (by decide) (by norm_num) 0 1 (by decide) (by decide) (by decide)

/-- C10: `tide_height_between` is total; the interior branch that divides by
`t1 - t0` is reached only when `t0 < t < t1`, and in the degenerate
`t0 = t1` case a clamp branch always fires, returning `h0` or `h1`. -/
theorem claim_C10 (t t0 t1 : Nat) (h0 h1 : ℝ) (hdeg : t0 = t1) :
    tide_height_between t t0 h0 t1 h1 = h0 ∨ tide_height_between t t0 h0 t1 h1 = h1 := by
  rcases le_or_lt t t0 with h | h
  · exact Or.inl (tide_left t t0 h0 t1 h1 h)
  · exact Or.inr (tide_right t t0 h0 t1 h1 h (hdeg ▸ le_of_lt h))

/-- Witness for C10 at the duplicate timestamp `t0 = t1 = 5`, query `t = 5`. -/
theorem claim_C10_witness :
    tide_height_between 5 5 (1 : ℝ) 5 2 = 1 ∨ tide_height_between 5 5 (1 : ℝ) 5 2 = 2 :=
  claim_C10 5 5 5 1 2 rfl

theorem main_written_eq (extrema : List Extremum) :
    main_written extrema = generate_hourly_tides extrema := by
  unfold main_written
  cases generate_hourly_tides extrema <;> rfl

theorem mem_dayIssues_incomplete (r : DailyRecord) (d n : Nat) :
    Finding.incompleteDay d n ∈ dayIssues r ↔
      d = r.date ∧ n = r.hours.length ∧ r.hours.length ≠ 24 := by
  simp only [dayIssues, List.mem_append, List.mem_filterMap]
  constructor
  · rintro (h | ⟨p, _hp, hf⟩)
    · split at h
      · next h24 =>
          rcases List.mem_singleton.mp h with heq
          injection heq with h1 h2
          exact ⟨h1, h2, h24⟩
      · cases h
    · split at hf
      · cases hf
      · cases hf
  · rintro ⟨rfl, rfl, h24⟩
    left
    rw [if_pos h24]
    exact List.mem_singleton.mpr rfl

theorem mem_dayIssues_unusual (r : DailyRecord) (d h : Nat) (v : ℝ) :
    Finding.unusualLevel d h v ∈ dayIssues r ↔
      d = r.date ∧ (h, v) ∈ r.hours ∧ ¬((-0.5 : ℝ) ≤ v ∧ v ≤ 4) := by
  simp only [dayIssues, List.mem_append, List.mem_filterMap]
  constructor
  · rintro (hx | ⟨p, hp, hf⟩)
    · split at hx
      · rcases List.mem_singleton.mp hx with heq
        cases heq
      · cases hx
    · split at hf
      · next hcond =>
          injection hf with heq
          injection heq with h1 h2 h3
          refine ⟨h1.symm, ?_, ?_⟩
          · have : p = (h, v) := Prod.ext h2 h3
            exact this ▸ hp
          · exact h3 ▸ hcond
      · cases hf
  · rintro ⟨rfl, hp, hcond⟩
    right
    exact ⟨(h, v), hp, by rw [if_pos hcond]⟩

theorem mem_validate_incomplete (dt : List DailyRecord) (d n : Nat) :
    Finding.incompleteDay d n ∈ validate_output dt ↔
      ∃ r ∈ dt, d = r.date ∧ n = r.hours.length ∧ r.hours.length ≠ 24 := by
  simp only [validate_output, List.mem_flatten, List.mem_map]
  constructor
  · rintro ⟨l, ⟨r, hr, rfl⟩, hx⟩
    exact ⟨r, hr, (mem_dayIssues_incomplete r d n).mp hx⟩
  · rintro ⟨r, hr, hx⟩
    exact ⟨dayIssues r, ⟨r, hr, rfl⟩, (mem_dayIssues_incomplete r d n).mpr hx⟩

theorem mem_validate_unusual (dt : List DailyRecord) (d h : Nat) (v : ℝ) :
    Finding.unusualLevel d h v ∈ validate_output dt ↔
      ∃ r ∈ dt, d = r.date ∧ (h, v) ∈ r.hours ∧ ¬((-0.5 : ℝ) ≤ v ∧ v ≤ 4) := by
  simp only [validate_output, List.mem_flatten, List.mem_map]
  constructor
  · rintro ⟨l, ⟨r, hr, rfl⟩, hx⟩
    exact ⟨r, hr, (mem_dayIssues_unusual r d h v).mp hx⟩
  · rintro ⟨r, hr, hx⟩
    exact ⟨dayIssues r, ⟨r, hr, rfl⟩, (mem_dayIssues_unusual r d h v).mpr hx⟩

/-- C1 (the code contradicts the claim): on zero parsed extrema,
`generate_hourly_tides` evaluates `extrema[0]` (line 126) before any emptiness
check and aborts with an uncaught `IndexError` (modelled as `none`) instead of
returning an empty result. -/
theorem claim_C1 : generate_hourly_tides [] = none := rfl

/-- C9: `validate_output` is purely diagnostic.  Its findings are exactly the
days with hour-count different from 24 and the heights outside `[-0.5, 4]`
(so an out-of-range height such as `10.0` yields a finding), and the data
`main` emits is exactly what `generate_hourly_tides` produced — validation
never mutates or discards it, findings present or not. -/
theorem claim_C9 :
    (∀ (dt : List DailyRecord) (d n : Nat),
      Finding.incompleteDay d n ∈ validate_output dt ↔
        ∃ r ∈ dt, d = r.date ∧ n = r.hours.length ∧ r.hours.length ≠ 24) ∧
    (∀ (dt : List DailyRecord) (d h : Nat) (v : ℝ),
      Finding.unusualLevel d h v ∈ validate_output dt ↔
        ∃ r ∈ dt, d = r.date ∧ (h, v) ∈ r.hours ∧ ¬((-0.5 : ℝ) ≤ v ∧ v ≤ 4)) ∧
    (∀ extrema : List Extremum, main_written extrema = generate_hourly_tides extrema) :=
  ⟨mem_validate_incomplete, mem_validate_unusual, main_written_eq⟩

/-- Witness for C9: the out-of-range height `10.0` (spec example) recorded at
hour 8 of some day produces an unusual-level finding. -/
theorem claim_C9_witness :
    Finding.unusualLevel 0 8 (10 : ℝ) ∈ validate_output [⟨0, [(8, (10 : ℝ))]⟩] :=
  (claim_C9.2.1 [⟨0, [(8, (10 : ℝ))]⟩] 0 8 10).mpr
    ⟨⟨0, [(8, (10 : ℝ))]⟩, List.mem_singleton.mpr rfl, rfl,
      List.mem_singleton.mpr rfl, by norm_num⟩

theorem countP_range_band (a b n : Nat) :
    (List.range n).countP (fun k => decide (a ≤ k) && decide (k < b)) =
      min b n - min a n := by
  induction n with
  | zero => simp
  | succ n ih =>
      rw [List.range_succ, List.countP_append, ih]
      by_cases ha : a ≤ n <;> by_cases hb : n < b <;>
        simp [List.countP_cons, ha, hb] <;> omega

theorem sampleCount_nil (d h : Nat) : sampleCount [] d h = 0 := rfl

theorem totalCount_nil (d : Nat) : totalCount [] d = 0 := rfl

theorem sampleCount_insertSample (data : List DailyRecord) (d h : Nat) (v : ℝ)
    (d2 h2 : Nat) :
    sampleCount (insertSample data d h v) d2 h2 =
      sampleCount data d2 h2 + (if d = d2 ∧ h = h2 then 1 else 0) := by
  induction data with
  | nil =>
      by_cases hd : d = d2 <;> by_cases hh : h = h2 <;>
        simp [insertSample, sampleCount, hourCount, List.filter_cons, hd, hh,
          List.countP_cons]
  | cons r rs ih =>
      by_cases hr : r.date = d
      · by_cases hd : r.date = d2 <;>
          simp [insertSample, sampleCount, hourCount, List.filter_cons, hr, hd,
            List.countP_append, List.countP_cons, hr ▸ hd] <;>
        · by_cases hh : h = h2 <;> simp [hh] <;> omega
      · by_cases hd : r.date = d2 <;>
          · simp only [insertSample, if_neg hr, sampleCount, hourCount,
              List.filter_cons] at ih ⊢
            simp [hd, ih, sampleCount, hourCount] <;> omega

theorem totalCount_insertSample (data : List DailyRecord) (d h : Nat) (v : ℝ)
    (d2 : Nat) :
    totalCount (insertSample data d h v) d2 =
      totalCount data d2 + (if d = d2 then 1 else 0) := by
  induction data with
  | nil =>
      by_cases hd : d = d2 <;>
        simp [insertSample, totalCount, List.filter_cons, hd]
  | cons r rs ih =>
      by_cases hr : r.date = d
      · by_cases hd : r.date = d2 <;>
          simp [insertSample, totalCount, List.filter_cons, hr, hd, hr ▸ hd] <;>
            omega
      · by_cases hd : r.date = d2 <;>
          · simp only [insertSample, if_neg hr, totalCount, List.filter_cons] at ih ⊢
            simp [hd, ih, totalCount] <;> omega

theorem mapDate_insertSample (data : List DailyRecord) (d h : Nat) (v : ℝ) :
    (insertSample data d h v).map (fun r => r.date) =
      if d ∈ data.map (fun r => r.date) then data.map (fun r => r.date)
      else data.map (fun r => r.date) ++ [d] := by
  induction data with
  | nil => simp [insertSample]
  | cons r rs ih =>
      by_cases hr : r.date = d
      · simp [insertSample, hr]
      · have hne : d ≠ r.date := fun hcontra => hr hcontra.symm
        by_cases hm : d ∈ rs.map (fun r => r.date) <;>
          simp [insertSample, hr, ih, hm, hne]

theorem nodupDates_insertSample (data : List DailyRecord) (d h : Nat) (v : ℝ)
    (hnd : (data.map (fun r => r.date)).Nodup) :
    ((insertSample data d h v).map (fun r => r.date)).Nodup := by
  rw [mapDate_insertSample]
  split
  · exact hnd
  · next hm => simp [List.nodup_append, hnd, hm]

theorem sampleCount_foldl (extrema : List Extremum) (ts : List Nat)
    (data : List DailyRecord) (d h : Nat) :
    sampleCount (ts.foldl (hourlyStep extrema) data) d h =
      sampleCount data d h +
        ts.countP (fun t => (bracket extrema t).isSome &&
          (decide (dayOf t = d) && decide (hourOf t = h))) := by
  induction ts generalizing data with
  | nil => simp
  | cons t ts ih =>
      rw [List.foldl_cons, ih, List.countP_cons]
      unfold hourlyStep
      cases hb : bracket extrema t with
      | none => simp [hb]
      | some p =>
          obtain ⟨e0, e1⟩ := p
          rw [sampleCount_insertSample]
          by_cases hd : dayOf t = d <;> by_cases hh : hourOf t = h <;>
            simp [hb, hd, hh] <;> omega

theorem totalCount_foldl (extrema : List Extremum) (ts : List Nat)
    (data : List DailyRecord) (d : Nat) :
    totalCount (ts.foldl (hourlyStep extrema) data) d =
      totalCount data d +
        ts.countP (fun t => (bracket extrema t).isSome && decide (dayOf t = d)) := by
  induction ts generalizing data with
  | nil => simp
  | cons t ts ih =>
      rw [List.foldl_cons, ih, List.countP_cons]
      unfold hourlyStep
      cases hb : bracket extrema t with
      | none => simp [hb]
      | some p =>
          obtain ⟨e0, e1⟩ := p
          rw [totalCount_insertSample]
          by_cases hd : dayOf t = d <;> simp [hb, hd] <;> omega

theorem nodupDates_foldl (extrema : List Extremum) (ts : List Nat)
    (data : List DailyRecord) (hnd : (data.map (fun r => r.date)).Nodup) :
    ((ts.foldl (hourlyStep extrema) data).map (fun r => r.date)).Nodup := by
  induction ts generalizing data with
  | nil => exact hnd
  | cons t ts ih =>
      rw [List.foldl_cons]
      apply ih
      unfold hourlyStep
      cases bracket extrema t with
      | none => exact hnd
      | some p =>
          obtain ⟨e0, e1⟩ := p
          exact nodupDates_insertSample data (dayOf t) (hourOf t) _ hnd

theorem mapDate_foldl_subset (extrema : List Extremum) (ts : List Nat)
    (data : List DailyRecord) (d : Nat)
    (hm : d ∈ ((ts.foldl (hourlyStep extrema) data).map (fun r => r.date))) :
    d ∈ data.map (fun r => r.date) ∨ ∃ t ∈ ts, dayOf t = d := by
  induction ts generalizing data with
  | nil => exact Or.inl hm
  | cons t ts ih =>
      rw [List.foldl_cons] at hm
      rcases ih (hourlyStep extrema data t) hm with h | ⟨u, hu, hud⟩
      · unfold hourlyStep at h
        cases hb : bracket extrema t with
        | none => rw [hb] at h; exact Or.inl h
        | some p =>
            obtain ⟨e0, e1⟩ := p
            rw [hb, mapDate_insertSample] at h
            split at h
            · exact Or.inl h
            · rcases List.mem_append.mp h with h2 | h2
              · exact Or.inl h2
              · exact Or.inr ⟨t, List.mem_cons_self t ts, (List.mem_singleton.mp h2).symm⟩
      · exact Or.inr ⟨u, List.mem_cons_of_mem t hu, hud⟩

theorem sampleCount_perm {recs recs2 : List DailyRecord} (hp : recs.Perm recs2)
    (d h : Nat) : sampleCount recs d h = sampleCount recs2 d h :=
  List.Perm.sum_eq (List.Perm.map _ (List.Perm.filter _ hp))

theorem totalCount_perm {recs recs2 : List DailyRecord} (hp : recs.Perm recs2)
    (d : Nat) : totalCount recs d = totalCount recs2 d :=
  List.Perm.sum_eq (List.Perm.map _ (List.Perm.filter _ hp))

theorem filter_date_eq_singleton (recs : List DailyRecord) (r : DailyRecord)
    (hnd : (recs.map (fun x => x.date)).Nodup) (hr : r ∈ recs) :
    recs.filter (fun x => x.date = r.date) = [r] := by
  induction recs with
  | nil => cases hr
  | cons x xs ih =>
      rcases List.mem_cons.mp hr with rfl | hr2
      · rw [List.filter_cons, if_pos (by simp)]
        have hnotin : ∀ y ∈ xs, y.date ≠ r.date := by
          intro y hy hcontra
          apply (List.nodup_cons.mp hnd).1
          show r.date ∈ xs.map (fun z => z.date)
          rw [← hcontra]
          exact List.mem_map_of_mem (fun z => z.date) hy
        congr 1
        apply List.filter_eq_nil_iff.mpr
        intro y hy
        simp [hnotin y hy]
      · have hxr : x.date ≠ r.date := by
          intro hcontra
          apply (List.nodup_cons.mp hnd).1
          show x.date ∈ xs.map (fun z => z.date)
          rw [hcontra]
          exact List.mem_map_of_mem (fun z => z.date) hr2
        rw [List.filter_cons, if_neg (by simp [hxr])]
        exact ih (List.nodup_cons.mp hnd).2 hr2

theorem sortedByTime_tail (a : Extremum) (l : List Extremum)
    (h : sortedByTime (a :: l) = true) : sortedByTime l = true := by
  cases l with
  | nil => rfl
  | cons b l =>
      exact (Bool.and_eq_true _ _ ▸ h).2

theorem sortedByTime_head (a b : Extremum) (l : List Extremum)
    (h : sortedByTime (a :: b :: l) = true) : a.time ≤ b.time :=
  of_decide_eq_true (Bool.and_eq_true _ _ ▸ h).1

theorem sortedByTime_head_getLastD (a : Extremum) (l : List Extremum)
    (h : sortedByTime (a :: l) = true) : a.time ≤ (l.getLastD a).time := by
  induction l generalizing a with
  | nil => exact le_refl _
  | cons b l ih =>
      rw [List.getLastD_cons]
      exact le_trans (sortedByTime_head a b l h) (ih b (sortedByTime_tail a (b :: l) h))

theorem bracket_isSome_iff (e0 : Extremum) (rest : List Extremum) (t : Nat)
    (hs : sortedByTime (e0 :: rest) = true) :
    (bracket (e0 :: rest) t).isSome = true ↔
      0 < rest.length ∧ e0.time ≤ t ∧ t ≤ (rest.getLastD e0).time := by
  induction rest generalizing e0 with
  | nil => simp [bracket]
  | cons e1 rs ih =>
      have hs1 : sortedByTime (e1 :: rs) = true := sortedByTime_tail e0 (e1 :: rs) hs
      have h01 : e0.time ≤ e1.time := sortedByTime_head e0 e1 rs hs
      rw [List.getLastD_cons]
      unfold bracket
      rw [List.tail_cons, List.zip_cons_cons, List.find?_cons]
      by_cases hpair : e0.time ≤ t ∧ t ≤ e1.time
      · have hp : (decide (e0.time ≤ t) && decide (t ≤ e1.time)) = true := by
          simp [hpair.1, hpair.2]
        rw [hp]
        simp only [Option.isSome_some, true_iff]
        refine ⟨by simp, hpair.1, ?_⟩
        exact le_trans hpair.2 (sortedByTime_head_getLastD e1 rs hs1)
      · have hp : (decide (e0.time ≤ t) && decide (t ≤ e1.time)) = false := by
          rcases not_and_or.mp hpair with h | h <;> simp [h]
        rw [hp]
        have ihh := ih e1 hs1
        unfold bracket at ihh
        rw [List.tail_cons] at ihh
        rw [ihh]
        constructor
        · rintro ⟨_, het, hlast⟩
          exact ⟨by simp, le_trans h01 het, hlast⟩
        · rintro ⟨_, het, hlast⟩
          rcases not_and_or.mp hpair with h | h
          · exact absurd het h
          · have h1t : e1.time < t := Nat.lt_of_not_le h
            cases rs with
            | nil =>
                exfalso
                simp only [List.getLastD_nil] at hlast
                omega
            | cons r2 rs2 =>
                exact ⟨by simp, le_of_lt h1t, hlast⟩

theorem tick_mod60 (start k : Nat) (hstart : start % 60 = 0) :
    (start + 60 * k) % 60 = 0 := by omega

theorem dayHour_determines (u t : Nat) (hu : u % 60 = 0) (ht : t % 60 = 0)
    (hd : dayOf u = dayOf t) (hh : hourOf u = hourOf t) : u = t := by
  unfold dayOf at hd
  unfold hourOf at hh
  omega

theorem countP_ticks_dayhour (extrema : List Extremum) (start endT t k0 : Nat)
    (hstart : start % 60 = 0) (ht : t = start + 60 * k0) (hle : t ≤ endT) :
    (ticks start endT).countP
        (fun u => (bracket extrema u).isSome &&
          (decide (dayOf u = dayOf t) && decide (hourOf u = hourOf t))) =
      if (bracket extrema t).isSome = true then 1 else 0 := by
  have hse : start ≤ endT := by omega
  unfold ticks
  rw [if_pos hse, List.countP_map]
  have hk0 : k0 < (endT - start) / 60 + 1 := by omega
  by_cases hB : (bracket extrema t).isSome = true
  · rw [if_pos hB]
    have hcong : ∀ k ∈ List.range ((endT - start) / 60 + 1),
        ((fun u => (bracket extrema u).isSome &&
          (decide (dayOf u = dayOf t) && decide (hourOf u = hourOf t))) ∘
          (fun k => start + 60 * k)) k = true ↔
          (decide (k0 ≤ k) && decide (k < k0 + 1)) = true := by
      intro k _hk
      simp only [Function.comp_apply, Bool.and_eq_true, decide_eq_true_eq]
      constructor
      · rintro ⟨_hbk, hdk, hhk⟩
        have hu : start + 60 * k = t :=
          dayHour_determines (start + 60 * k) t (tick_mod60 start k hstart)
            (by omega) hdk hhk
        omega
      · rintro ⟨h1, h2⟩
        have hu : start + 60 * k = t := by omega
        rw [hu]
        exact ⟨hB, rfl, rfl⟩
    rw [List.countP_congr hcong, countP_range_band]
    omega
  · rw [if_neg hB]
    apply List.countP_eq_zero.mpr
    intro k _hk
    simp only [Function.comp_apply, Bool.and_eq_true, decide_eq_true_eq]
    rintro ⟨hbk, hdk, hhk⟩
    have hu : start + 60 * k = t :=
      dayHour_determines (start + 60 * k) t (tick_mod60 start k hstart)
        (by omega) hdk hhk
    rw [hu] at hbk
    exact hB hbk

/-- C2 (amended): for a non-empty sorted extrema sequence, an hour tick `t` of
the generated range (from the first extremum's day start through hour 23 of
the last extremum's day) receives exactly one sample if there are at least two
extrema and `first.time ≤ t ≤ last.time`, and no sample otherwise — ticks of
the range outside the extrema-bracketed span (and every tick when only one
extremum exists) are silently dropped, so the claim's "every hour tick from
day start" overstates the covered ticks. -/
theorem claim_C2 (e0 : Extremum) (rest : List Extremum)
    (hs : sortedByTime (e0 :: rest) = true) (t k0 : Nat)
    (htick : t = floorToDay e0.time + 60 * k0)
    (hle : t ≤ floorToDay (rest.getLastD e0).time + 23 * 60) :
    sampleCount ((generate_hourly_tides (e0 :: rest)).getD []) (dayOf t) (hourOf t) =
      if 0 < rest.length ∧ e0.time ≤ t ∧ t ≤ (rest.getLastD e0).time then 1 else 0 := by
  have hgen : (generate_hourly_tides (e0 :: rest)).getD [] =
      List.insertionSort
        (fun a b => strLe (strftimeDate a.date) (strftimeDate b.date) = true)
        ((ticks (floorToDay e0.time) (floorToDay (rest.getLastD e0).time + 23 * 60)).foldl
          (hourlyStep (e0 :: rest)) []) := rfl
  rw [hgen, sampleCount_perm (List.perm_insertionSort _ _) (dayOf t) (hourOf t),
    sampleCount_foldl, sampleCount_nil,
    countP_ticks_dayhour (e0 :: rest) (floorToDay e0.time) _ t k0
      (by show 1440 * (e0.time / 1440) % 60 = 0; omega) htick hle,
    Nat.zero_add]
  exact if_congr (bracket_isSome_iff e0 rest t hs) rfl rfl

/-- C2 as stated is false: for the sorted extrema 01:00 and 02:00 of one day
(heights 1 and 2), the hour tick 00:00 lies in the claimed range — it is the
day start `floorToDay(first) = 0` — yet it is bracketed by no pair of
extrema, so the loop records no sample for it (hour 0 of day 0 has count 0,
and the day's record carries 2 entries, not 24). -/
theorem claim_C2_counterexample :
    sortedByTime [⟨60, 1⟩, ⟨120, 2⟩] = true ∧
    floorToDay 60 = 0 ∧ dayOf 0 = 0 ∧ hourOf 0 = 0 ∧
    sampleCount ((generate_hourly_tides [⟨60, (1 : ℝ)⟩, ⟨120, 2⟩]).getD []) 0 0 = 0 :=
  ⟨by decide, rfl, rfl, rfl, by decide⟩

/-- Witness for C2 (amended) at the same input, at the tick `t = 60` (01:00),
which is bracketed and receives exactly one sample. -/
theorem claim_C2_witness :
    sampleCount ((generate_hourly_tides [⟨60, (1 : ℝ)⟩, ⟨120, 2⟩]).getD [])
        (dayOf 60) (hourOf 60) =
      if 0 < ([⟨120, (2 : ℝ)⟩] : List Extremum).length ∧
          (⟨60, (1 : ℝ)⟩ : Extremum).time ≤ 60 ∧
          60 ≤ (([⟨120, (2 : ℝ)⟩] : List Extremum).getLastD ⟨60, 1⟩).time
      then 1 else 0 :=
  claim_C2 ⟨60, 1⟩ [⟨120, 2⟩] (by decide) 60 1 (by decide) (by decide)

theorem charListLe_total : ∀ a b : List Char,
    charListLe a b = true ∨ charListLe b a = true
  | [], _ => Or.inl rfl
  | _ :: _, [] => Or.inr rfl
  | a :: as, b :: bs => by
      unfold charListLe
      by_cases h1 : a.toNat < b.toNat
      · rw [if_pos h1]
        exact Or.inl rfl
      · by_cases h2 : b.toNat < a.toNat
        · rw [if_neg h1, if_pos h2, if_pos h2]
          exact Or.inr rfl
        · rw [if_neg h1, if_neg h2, if_neg h2, if_neg h1]
          exact charListLe_total as bs

theorem charListLe_trans : ∀ a b c : List Char, charListLe a b = true →
    charListLe b c = true → charListLe a c = true
  | [], _, _ => fun _ _ => rfl
  | _ :: _, [], _ => fun hab _ => by cases hab
  | _ :: _, _ :: _, [] => fun _ hbc => by cases hbc
  | a :: as, b :: bs, c :: cs => fun hab hbc => by
      unfold charListLe at hab hbc ⊢
      by_cases h1 : a.toNat < b.toNat
      · by_cases h2 : b.toNat < c.toNat
        · rw [if_pos (show a.toNat < c.toNat by omega)]
        · rw [if_neg h2] at hbc
          by_cases h2b : c.toNat < b.toNat
          · rw [if_pos h2b] at hbc
            cases hbc
          · rw [if_pos (show a.toNat < c.toNat by omega)]
      · rw [if_neg h1] at hab
        by_cases h1b : b.toNat < a.toNat
        · rw [if_pos h1b] at hab
          cases hab
        · rw [if_neg h1b] at hab
          by_cases h2 : b.toNat < c.toNat
          · rw [if_pos (show a.toNat < c.toNat by omega)]
          · rw [if_neg h2] at hbc
            by_cases h2b : c.toNat < b.toNat
            · rw [if_pos h2b] at hbc
              cases hbc
            · rw [if_neg h2b] at hbc
              rw [if_neg (show ¬a.toNat < c.toNat by omega),
                if_neg (show ¬c.toNat < a.toNat by omega)]
              exact charListLe_trans as bs cs hab hbc

instance :
    IsTotal DailyRecord (fun a b =>
      strLe (strftimeDate a.date) (strftimeDate b.date) = true) :=
  ⟨fun a b => charListLe_total (strftimeDate a.date).data (strftimeDate b.date).data⟩

instance :
    IsTrans DailyRecord (fun a b =>
      strLe (strftimeDate a.date) (strftimeDate b.date) = true) :=
  ⟨fun a b c hab hbc => charListLe_trans (strftimeDate a.date).data
    (strftimeDate b.date).data (strftimeDate c.date).data hab hbc⟩

/-- C8 as stated is false of the code for dates below year 1000: the records
are keyed and sorted by their `strftime("%Y-%m-%d")` strings and glibc prints
`%Y` without zero-padding, so the string `"1000-01-01"` sorts before
`"999-12-31"`.  For extrema at midnight of 0999-12-31 and 1000-01-01 — both
loadable, since `strptime` requires exactly 4 date digits and accepts
`"0999-12-31"` — the emitted records are date-DESCENDING. -/
theorem claim_C8_counterexample :
    (((generate_hourly_tides
        [⟨dayNumber 999 12 31 * 1440, (1 : ℝ)⟩,
          ⟨dayNumber 1000 1 1 * 1440, 2⟩]).getD []).map (fun r => r.date)) =
      [dayNumber 1000 1 1, dayNumber 999 12 31] ∧
    dayNumber 999 12 31 < dayNumber 1000 1 1 ∧
    strftimeDate (dayNumber 999 12 31) = "999-12-31" ∧
    strftimeDate (dayNumber 1000 1 1) = "1000-01-01" :=
  ⟨by decide, by decide, by decide, by decide⟩

/-- C8 (amended): for every extrema input, the emitted DailyRecords are
sorted ascending by their `strftime("%Y-%m-%d")` date-string key and no two
records share a date.  This coincides with chronological ascending order
whenever all year strings have the same length (in particular for all years
from 1000 on, i.e. all 4-digit input dates), but not across the year
999/1000 boundary, where glibc's unpadded `%Y` makes the string order
diverge from the date order.  (On empty input the code aborts and returns no
list; the default empty list stands for the absent output, for which the
property holds vacuously.) -/
theorem claim_C8 (extrema : List Extremum) :
    List.Pairwise (fun a b : DailyRecord =>
      strLe (strftimeDate a.date) (strftimeDate b.date) = true ∧ a.date ≠ b.date)
      ((generate_hourly_tides extrema).getD []) := by
  cases extrema with
  | nil => exact List.Pairwise.nil
  | cons e0 rest =>
      have hgen : (generate_hourly_tides (e0 :: rest)).getD [] =
          List.insertionSort
        (fun a b => strLe (strftimeDate a.date) (strftimeDate b.date) = true)
            ((ticks (floorToDay e0.time)
                (floorToDay (rest.getLastD e0).time + 23 * 60)).foldl
              (hourlyStep (e0 :: rest)) []) := rfl
      rw [hgen]
      have h1 : ((((ticks (floorToDay e0.time)
          (floorToDay (rest.getLastD e0).time + 23 * 60)).foldl
            (hourlyStep (e0 :: rest)) [])).map (fun r => r.date)).Nodup :=
        nodupDates_foldl _ _ _ (by simp)
      have hperm := (List.perm_insertionSort
        (fun a b : DailyRecord =>
          strLe (strftimeDate a.date) (strftimeDate b.date) = true)
        ((ticks (floorToDay e0.time)
            (floorToDay (rest.getLastD e0).time + 23 * 60)).foldl
          (hourlyStep (e0 :: rest)) [])).map (fun r => r.date)
      have hnd : ((List.insertionSort
          (fun a b : DailyRecord =>
            strLe (strftimeDate a.date) (strftimeDate b.date) = true)
          ((ticks (floorToDay e0.time)
              (floorToDay (rest.getLastD e0).time + 23 * 60)).foldl
            (hourlyStep (e0 :: rest)) [])).map (fun r => r.date)).Nodup :=
        hperm.nodup_iff.mpr h1
      have hsorted := List.sorted_insertionSort
        (fun a b : DailyRecord =>
          strLe (strftimeDate a.date) (strftimeDate b.date) = true)
        ((ticks (floorToDay e0.time)
            (floorToDay (rest.getLastD e0).time + 23 * 60)).foldl
          (hourlyStep (e0 :: rest)) [])
      have hne : List.Pairwise (fun a b : DailyRecord => a.date ≠ b.date)
          (List.insertionSort
            (fun a b : DailyRecord =>
              strLe (strftimeDate a.date) (strftimeDate b.date) = true)
            ((ticks (floorToDay e0.time)
                (floorToDay (rest.getLastD e0).time + 23 * 60)).foldl
              (hourlyStep (e0 :: rest)) [])) :=
        List.pairwise_map.mp hnd
      exact hsorted.and hne

theorem middleDay_count (e0 : Extremum) (rest : List Extremum)
    (hs : sortedByTime (e0 :: rest) = true) (d : Nat)
    (hd1 : e0.time / 1440 < d) (hd2 : d < (rest.getLastD e0).time / 1440) :
    (ticks (floorToDay e0.time) (floorToDay (rest.getLastD e0).time + 23 * 60)).countP
        (fun t => (bracket (e0 :: rest) t).isSome && decide (dayOf t = d)) = 24 := by
  have hrest : 0 < rest.length := by
    cases rest with
    | nil => simp only [List.getLastD_nil] at hd2; omega
    | cons r2 rs2 => simp
  have hse : floorToDay e0.time ≤ floorToDay (rest.getLastD e0).time + 23 * 60 := by
    unfold floorToDay; omega
  unfold ticks
  rw [if_pos hse, List.countP_map]
  have hcong : ∀ k ∈ List.range
      ((floorToDay (rest.getLastD e0).time + 23 * 60 - floorToDay e0.time) / 60 + 1),
      ((fun t => (bracket (e0 :: rest) t).isSome && decide (dayOf t = d)) ∘
        (fun k => floorToDay e0.time + 60 * k)) k = true ↔
        (decide (24 * (d - e0.time / 1440) ≤ k) &&
          decide (k < 24 * (d - e0.time / 1440) + 24)) = true := by
    intro k _hk
    simp only [Function.comp_apply, Bool.and_eq_true, decide_eq_true_eq]
    constructor
    · rintro ⟨_hb, hdk⟩
      unfold dayOf floorToDay at hdk
      omega
    · rintro ⟨h1, h2⟩
      constructor
      · apply (bracket_isSome_iff e0 rest _ hs).mpr
        refine ⟨hrest, ?_, ?_⟩
        · unfold floorToDay; omega
        · unfold floorToDay; omega
      · unfold dayOf floorToDay
        omega
  rw [List.countP_congr hcong, countP_range_band]
  unfold floorToDay
  omega

/-- C4: for a non-empty sorted extrema sequence, any emitted DailyRecord whose
date is neither the first extremum's day nor the last extremum's day is unique
for its date and carries exactly 24 hour entries — so a record with fewer
than 24 entries can only be the partial first or last day of the range. -/
theorem claim_C4 (e0 : Extremum) (rest : List Extremum)
    (hs : sortedByTime (e0 :: rest) = true) (d : Nat)
    (hmem : d ∈ ((generate_hourly_tides (e0 :: rest)).getD []).map (fun r => r.date))
    (hfirst : d ≠ dayOf e0.time) (hlast : d ≠ dayOf (rest.getLastD e0).time) :
    (((generate_hourly_tides (e0 :: rest)).getD []).filter
        (fun r => r.date = d)).map (fun r => r.hours.length) = [24] := by
  have hgen : (generate_hourly_tides (e0 :: rest)).getD [] =
      List.insertionSort
        (fun a b => strLe (strftimeDate a.date) (strftimeDate b.date) = true)
        ((ticks (floorToDay e0.time)
            (floorToDay (rest.getLastD e0).time + 23 * 60)).foldl
          (hourlyStep (e0 :: rest)) []) := rfl
  have hse : floorToDay e0.time ≤ floorToDay (rest.getLastD e0).time + 23 * 60 := by
    have := sortedByTime_head_getLastD e0 rest hs
    unfold floorToDay
    omega
  have hpermd := (List.perm_insertionSort (fun a b : DailyRecord => strLe (strftimeDate a.date) (strftimeDate b.date) = true)
    ((ticks (floorToDay e0.time)
        (floorToDay (rest.getLastD e0).time + 23 * 60)).foldl
      (hourlyStep (e0 :: rest)) [])).map (fun r => r.date)
  have hmemL : d ∈ (((ticks (floorToDay e0.time)
      (floorToDay (rest.getLastD e0).time + 23 * 60)).foldl
        (hourlyStep (e0 :: rest)) []).map (fun r => r.date)) := by
    rw [hgen] at hmem
    exact hpermd.mem_iff.mp hmem
  have hdbounds : e0.time / 1440 ≤ d ∧ d ≤ (rest.getLastD e0).time / 1440 := by
    rcases mapDate_foldl_subset _ _ _ _ hmemL with hh | ⟨t, ht, htd⟩
    · simp at hh
    · unfold ticks at ht
      rw [if_pos hse] at ht
      obtain ⟨k, hk, hfk⟩ := List.mem_map.mp ht
      have hkn := List.mem_range.mp hk
      have hEM : e0.time / 1440 ≤ (rest.getLastD e0).time / 1440 := by
        have := sortedByTime_head_getLastD e0 rest hs
        omega
      unfold floorToDay at hfk hkn
      unfold dayOf at htd
      omega
  have hd1 : e0.time / 1440 < d :=
    lt_of_le_of_ne hdbounds.1 (fun hcontra => hfirst hcontra.symm)
  have hd2 : d < (rest.getLastD e0).time / 1440 :=
    lt_of_le_of_ne hdbounds.2 hlast
  obtain ⟨r, hrS, hrd⟩ := List.mem_map.mp hmem
  have hndS : ((((generate_hourly_tides (e0 :: rest)).getD []).map
      (fun r => r.date))).Nodup := by
    rw [hgen]
    exact hpermd.nodup_iff.mpr (nodupDates_foldl _ _ _ (by simp))
  have hfilter : ((generate_hourly_tides (e0 :: rest)).getD []).filter
      (fun x => x.date = r.date) = [r] :=
    filter_date_eq_singleton _ r hndS hrS
  have htc : totalCount ((generate_hourly_tides (e0 :: rest)).getD []) d = 24 := by
    rw [hgen, totalCount_perm (List.perm_insertionSort _ _) d, totalCount_foldl,
      totalCount_nil, Nat.zero_add]
    exact middleDay_count e0 rest hs d hd1 hd2
  rw [← hrd] at htc ⊢
  rw [hfilter]
  unfold totalCount at htc
  rw [hfilter] at htc
  simp only [List.map_cons, List.map_nil, List.sum_cons, List.sum_nil,
    Nat.add_zero] at htc
  rw [List.map_cons, List.map_nil, htc]

/-- Witness for C4: extrema at day 0, 10:00 and day 2, 10:00; the middle day 1
is a single record with exactly 24 hour entries. -/
theorem claim_C4_witness :
    (((generate_hourly_tides [⟨600, (1 : ℝ)⟩, ⟨3480, 2⟩]).getD []).filter
        (fun r => r.date = 1)).map (fun r => r.hours.length) = [24] :=
  claim_C4 ⟨600, 1⟩ [⟨3480, 2⟩] (by decide) 1 (by decide) (by decide) (by decide)

theorem parseSlot_none_of_bad (dateStr tv hv : String)
    (hb : slotBad dateStr tv hv) : parseSlot dateStr tv hv = none := by
  unfold parseSlot
  rcases hb with ⟨-, h⟩ | ⟨-, h⟩ | ⟨-, h⟩ | ⟨-, -, h⟩ | ⟨hour, minute, h1, h2, h3⟩
  · rw [h]
  · cases hA : pyInt (tv.take 2) with
    | none => rfl
    | some hour => rw [h]
  · cases hA : pyInt (tv.take 2) with
    | none => rfl
    | some hour =>
        cases hB : pyInt (tv.drop 2) with
        | none => rfl
        | some minute => rw [h]
  · cases hA : pyInt (tv.take 2) with
    | none => rfl
    | some hour =>
        cases hB : pyInt (tv.drop 2) with
        | none => rfl
        | some minute =>
            cases hC : parseDate dateStr with
            | none => rfl
            | some ymd =>
                obtain ⟨y, m, dd⟩ := ymd
                by_cases hr : 0 ≤ hour ∧ hour ≤ 23 ∧ 0 ≤ minute ∧ minute ≤ 59
                · simp [hr, h]
                · simp [hr]
  · simp only [h1, h2]
    cases hC : parseDate dateStr with
    | none => rfl
    | some ymd =>
        obtain ⟨y, m, dd⟩ := ymd
        simp [h3]

theorem parseSlots_none (dateStr : String) (slots : List (String × String))
    (tv hv : String) (hmem : (tv, hv) ∈ slots)
    (htv : pyStrip tv ≠ "") (hhv : pyStrip hv ≠ "")
    (hb : parseSlot dateStr (pyStrip tv) (pyStrip hv) = none) :
    parseSlots dateStr slots = none := by
  induction slots with
  | nil => cases hmem
  | cons s rest ih =>
      rcases List.mem_cons.mp hmem with heq | hmem2
      · subst heq
        unfold parseSlots
        rw [if_pos ⟨htv, hhv⟩]
        rw [hb]
      · obtain ⟨tv2, hv2⟩ := s
        unfold parseSlots
        by_cases hp : pyStrip tv2 ≠ "" ∧ pyStrip hv2 ≠ ""
        · rw [if_pos hp]
          cases hps : parseSlot dateStr (pyStrip tv2) (pyStrip hv2) with
          | none => rfl
          | some e => rw [ih hmem2]; rfl
        · rw [if_neg hp]
          exact ih hmem2

theorem parseRows_none (rows : List Row) (row : Row) (hmem : row ∈ rows)
    (hex : strStartsWith row.date "EXAMPLE" = false)
    (hb : parseSlots row.date row.slots = none) :
    parseRows rows = none := by
  induction rows with
  | nil => cases hmem
  | cons r rest ih =>
      rcases List.mem_cons.mp hmem with heq | hmem2
      · subst heq
        unfold parseRows
        rw [if_neg (by simp [hex]), hb]
      · unfold parseRows
        by_cases hexr : strStartsWith r.date "EXAMPLE" = true
        · rw [if_pos hexr]
          exact ih hmem2
        · rw [if_neg hexr]
          cases hps : parseSlots r.date r.slots with
          | none => rfl
          | some es => rw [ih hmem2]; rfl

/-- C3 (amended): `parse_csv_to_extrema` fails fatally (producing no output)
whenever some present slot of a non-skipped row has an hour slice
`time_val[:2]` or minute slice `time_val[2:]` that `int()` rejects, an
`int()`-parsed hour/minute outside the range `dt.replace` accepts, a date
`strptime` rejects, or a height that `float()` rejects (each failing string
pure ASCII — where the modelled grammars coincide with CPython — and the
height not an `inf`/`nan` spelling, which CPython parses to non-finite
floats outside this model's scope); in particular the malformed time
`"25AB"` (whose minute slice `"AB"` is non-numeric) aborts the run.  A
present time string that is not exactly 4 digits but slices into in-range
`int()` values — such as `"103"` (10:03) or `"+130"` (01:30) — parses
successfully, and an invalid date on a row with no present slot is never
even examined, so the claim's blanket "not exactly 4 digits" and
unconditional date conditions are narrowed. -/
theorem claim_C3 (rows : List Row) (row : Row) (tv hv : String)
    (hrow : row ∈ rows) (hex : strStartsWith row.date "EXAMPLE" = false)
    (hslot : (tv, hv) ∈ row.slots)
    (htv : pyStrip tv ≠ "") (hhv : pyStrip hv ≠ "")
    (hbad : slotBad row.date (pyStrip tv) (pyStrip hv)) :
    parse_csv_to_extrema rows = none := by
  unfold parse_csv_to_extrema
  rw [parseRows_none rows row hrow hex
    (parseSlots_none row.date row.slots tv hv hslot htv hhv
      (parseSlot_none_of_bad row.date (pyStrip tv) (pyStrip hv) hbad))]
  rfl

/-- C3 as stated is false: the present time string `"103"` is not exactly
4 digits, yet the loader succeeds — `int("10")` and `int("3")` both parse,
so the row yields one extremum at 10:03 of 2025-12-01 (minute count
`dayNumber 2025 12 1 * 1440 + 10 * 60 + 3`) instead of a `ParseError`; the
same happens for `"+130"` (4 characters but only 3 digits), which `int`'s
sign handling reads as 01:30. -/
theorem claim_C3_counterexample :
    ((parse_csv_to_extrema [⟨"2025-12-01",
        [("103", "1.0"), ("", ""), ("", ""), ("", "")]⟩]).map
      (fun l => l.map (fun e => e.time))) =
        some [dayNumber 2025 12 1 * 1440 + 10 * 60 + 3] ∧
    "103".length ≠ 4 ∧
    ((parse_csv_to_extrema [⟨"2025-12-01",
        [("+130", "2.7"), ("", ""), ("", ""), ("", "")]⟩]).map
      (fun l => l.map (fun e => e.time))) =
        some [dayNumber 2025 12 1 * 1440 + 1 * 60 + 30] ∧
    "+130".data.all Char.isDigit = false :=
  ⟨by decide, by decide, by decide, by decide⟩

/-- Witness for C3 (amended): the spec's own example `"25AB"` — its minute
slice `"AB"` is ASCII and non-numeric — makes the whole parse fail with no
output. -/
theorem claim_C3_witness :
    parse_csv_to_extrema [⟨"2025-12-01",
      [("25AB", "2.7"), ("", ""), ("", ""), ("", "")]⟩] = none :=
  claim_C3 [⟨"2025-12-01", [("25AB", "2.7"), ("", ""), ("", ""), ("", "")]⟩]
    ⟨"2025-12-01", [("25AB", "2.7"), ("", ""), ("", ""), ("", "")]⟩
    "25AB" "2.7" (List.mem_singleton.mpr rfl) (by decide) (by decide)
    (by decide) (by decide) (Or.inr (Or.inl ⟨by decide, by decide⟩))
